import Mathlib

/-!
Verification of the declarative scheduling condition evaluator of the
dagster repository.

The development shallowly embeds the data model and operations of
`python_modules/dagster/dagster/_core/definitions/declarative_scheduling`:

* partition subsets of a single asset are `Finset P` over an abstract
  partition-key type `P` with decidable equality;
* the condition expression tree (`CondM`) with leaf operands, AND / OR
  combinators carrying one-or-more children, and the single-child NOT
  combinator;
* the evaluator `evalCond`, which walks the tree depth-first producing a
  result tree (`EvalResult`) of true subsets, candidates and child results;
* the structural `uniqueId` of a condition and a leaf-level cache on top
  of the evaluator;
* the `AssetConditionResult.create` / `create_from_children` constructors
  of `legacy/asset_condition.py`, embedded field by field.

Only `legacy/asset_condition.py` and the scenario tests are present in the
repository snapshot; the boolean operators, the subset algebra, the
`unique_id` property and the leaf slice conditions are referenced but not
included, so those definitions are modelled from the specification text
(each such definition says so in its doc comment).
-/

namespace DagsterScheduling

/-! ## Partition subset algebra (spec §4.1)

Modelled from the spec: an `AssetSubset` is an immutable set of partitions
of one asset, always contained in the asset's currently valid partition
space; `union`, `intersect`, `subtract` are the set operations and
`invert` is the complement within the valid partition space. -/

/-- Modelled from the spec: `union(a,b)` on asset subsets (the code for
`AssetSubset` is not in the snapshot). -/
def unionSubset {P : Type} [DecidableEq P] (a b : Finset P) : Finset P := a ∪ b

/-- Modelled from the spec: `intersect(a,b)` on asset subsets. -/
def intersectSubset {P : Type} [DecidableEq P] (a b : Finset P) : Finset P := a ∩ b

/-- Modelled from the spec: `subtract(a,b)` on asset subsets. -/
def subtractSubset {P : Type} [DecidableEq P] (a b : Finset P) : Finset P := a \ b

/-- Modelled from the spec: `invert(a)`, the complement of a subset within
the asset's current valid partition space `validSpace`. -/
def invertSubset {P : Type} [DecidableEq P] (validSpace a : Finset P) : Finset P :=
  validSpace \ a

/-! ## The condition tree and its evaluator (spec §3, §4.2)

The legacy `AutoMaterializeRule` objects wrapped by `RuleCondition`
(factories visible in `legacy/asset_condition.py`). -/

/-- Rules produced by the `AutoMaterializeRule` factory methods that
`legacy/asset_condition.py` wraps in `RuleCondition`s. Their evaluation
code is not in the snapshot; they are opaque leaf operands here. -/
inductive AutoMaterializeRuleM : Type where
  | materialize_on_parent_updated : AutoMaterializeRuleM
  | materialize_on_missing : AutoMaterializeRuleM
  | skip_on_parent_missing : AutoMaterializeRuleM
  | materialize_on_cron (cron_schedule timezone : String) : AutoMaterializeRuleM
  | skip_on_not_all_parents_updated_since_cron (cron_schedule timezone : String) :
      AutoMaterializeRuleM
  deriving DecidableEq

/-- Leaf operand conditions of the condition tree: the `RuleCondition`
adapter over a legacy rule, and the slice conditions named in
`legacy/asset_condition.py` (`MaterializedSchedulingCondition`,
`InProgressSchedulingCondition`, `InLatestTimeWindowCondition`). The
lookback duration (a `float` of seconds in the code) is modelled as an
optional number of seconds. -/
inductive LeafOp : Type where
  | ruleCondition (rule : AutoMaterializeRuleM) : LeafOp
  | materializedCondition : LeafOp
  | inProgressCondition : LeafOp
  | inLatestTimeWindowCondition (lookback_seconds : Option Nat) : LeafOp
  deriving DecidableEq

/-- Modelled from the spec: a `SchedulingCondition` is an immutable
expression tree: leaf operands, the AND / OR combinators over one or more
children (a first child plus the list of the remaining ones), and the
single-child NOT combinator. The leaf type `L` is a parameter; the claims
about concrete conditions use `LeafOp`. -/
inductive CondM (L : Type) : Type where
  | leaf : L → CondM L
  | andC : CondM L → List (CondM L) → CondM L
  | orC : CondM L → List (CondM L) → CondM L
  | notC : CondM L → CondM L

/-- Modelled from the spec: an `AssetConditionResult` as the evaluator
produces it — the `true_slice`, the candidate subset the node was
evaluated against, and the ordered child results (empty for leaves). -/
inductive EvalResult (P : Type) [DecidableEq P] : Type where
  | mk : Finset P → Finset P → List (EvalResult P) → EvalResult P

/-- The `true_slice` of a result. -/
@[simp] def EvalResult.trueSubset {P : Type} [DecidableEq P] : EvalResult P → Finset P
  | .mk t _ _ => t

/-- The candidate subset a result was evaluated against. -/
@[simp] def EvalResult.candidate {P : Type} [DecidableEq P] : EvalResult P → Finset P
  | .mk _ c _ => c

/-- The ordered child results of a result. -/
@[simp] def EvalResult.childResults {P : Type} [DecidableEq P] :
    EvalResult P → List (EvalResult P)
  | .mk _ _ rs => rs

mutual

/-- Modelled from the spec (§4.2): depth-first evaluation of a condition
tree. A leaf's true subset is given by the external-state semantics
`E : L → Finset P → Finset P` (leaf operand and candidate to true subset).
AND: the first child receives the parent's candidate, each subsequent
child receives the intersection of the parent's candidate with the true
subset accumulated so far, and the final true slice is the intersection of
all children's true slices. OR: every child receives the parent's
candidate unchanged and the final true slice is the union of the
children's true slices. NOT: the single child receives the same candidate
and the final true slice is the candidate minus the child's true slice. -/
def evalCond {L P : Type} [DecidableEq P] (E : L → Finset P → Finset P) :
    CondM L → Finset P → EvalResult P
  | .leaf op, cand => .mk (E op cand) cand []
  | .notC c, cand =>
    let r := evalCond E c cand
    .mk (cand \ r.trueSubset) cand [r]
  | .andC c cs, cand =>
    let r := evalCond E c cand
    let p := evalAndRest E cand cs r.trueSubset
    .mk p.2 cand (r :: p.1)
  | .orC c cs, cand =>
    let r := evalCond E c cand
    let p := evalOrRest E cand cs r.trueSubset
    .mk p.2 cand (r :: p.1)

/-- Evaluation of the remaining AND children: `acc` is the intersection of
the true subsets of the children already evaluated; the next child's
candidate is `parentCand ∩ acc`. Returns the child results and the final
accumulated true subset. -/
def evalAndRest {L P : Type} [DecidableEq P] (E : L → Finset P → Finset P)
    (parentCand : Finset P) : List (CondM L) → Finset P → List (EvalResult P) × Finset P
  | [], acc => ([], acc)
  | c :: cs, acc =>
    let r := evalCond E c (parentCand ∩ acc)
    let p := evalAndRest E parentCand cs (acc ∩ r.trueSubset)
    (r :: p.1, p.2)

/-- Evaluation of the remaining OR children: every child receives the
parent's candidate unchanged; `acc` is the union of the true subsets of
the children already evaluated. -/
def evalOrRest {L P : Type} [DecidableEq P] (E : L → Finset P → Finset P)
    (parentCand : Finset P) : List (CondM L) → Finset P → List (EvalResult P) × Finset P
  | [], acc => ([], acc)
  | c :: cs, acc =>
    let r := evalCond E c parentCand
    let p := evalOrRest E parentCand cs (acc ∪ r.trueSubset)
    (r :: p.1, p.2)

end

/-- The intersection of a non-empty list of subsets (∅ for the empty
list); used to state that an AND result is the intersection of its
children's true slices. -/
def interList {P : Type} [DecidableEq P] : List (Finset P) → Finset P
  | [] => ∅
  | t :: ts => ts.foldl (fun a b => a ∩ b) t

/-- The union of a non-empty list of subsets (∅ for the empty list). -/
def unionList {P : Type} [DecidableEq P] : List (Finset P) → Finset P
  | [] => ∅
  | t :: ts => ts.foldl (fun a b => a ∪ b) t

/-! ## Structural unique_id (spec §3, §9) -/

/-- Modelled from the spec: the combining step of `unique_id` — a pure
function of the node's variant tag (class name plus constructor
parameters) and the already-computed child ids. The real code hashes the
concatenation; the model keeps the concatenation itself, which preserves
exactly the structural-identity behaviour the spec describes. -/
def combineUniqueId (tag : String) (childIds : List String) : String :=
  tag ++ "(" ++ String.intercalate "," childIds ++ ")"

mutual

/-- Modelled from the spec: `unique_id` of a condition — a deterministic
pure function of the condition's structural identity: the variant tag,
the constructor parameters (supplied for leaves by `tagL`), and the
recursively computed child unique ids. The `unique_id` code itself is not
in the snapshot. -/
def uniqueId {L : Type} (tagL : L → String) : CondM L → String
  | .leaf op => combineUniqueId (tagL op) []
  | .andC c cs => combineUniqueId "AndAssetCondition" (uniqueId tagL c :: uniqueIdList tagL cs)
  | .orC c cs => combineUniqueId "OrAssetCondition" (uniqueId tagL c :: uniqueIdList tagL cs)
  | .notC c => combineUniqueId "NotAssetCondition" [uniqueId tagL c]

/-- The unique ids of a list of children, in order. -/
def uniqueIdList {L : Type} (tagL : L → String) : List (CondM L) → List String
  | [] => []
  | c :: cs => uniqueId tagL c :: uniqueIdList tagL cs

end

/-- The variant tag of a leaf operand: its class name together with its
constructor parameters, mirroring the class names in the source. -/
def LeafOp.tag : LeafOp → String
  | .ruleCondition .materialize_on_parent_updated =>
    "RuleCondition[MaterializeOnParentUpdatedRule]"
  | .ruleCondition .materialize_on_missing => "RuleCondition[MaterializeOnMissingRule]"
  | .ruleCondition .skip_on_parent_missing => "RuleCondition[SkipOnParentMissingRule]"
  | .ruleCondition (.materialize_on_cron cron_schedule timezone) =>
    "RuleCondition[MaterializeOnCronRule," ++ cron_schedule ++ "," ++ timezone ++ "]"
  | .ruleCondition (.skip_on_not_all_parents_updated_since_cron cron_schedule timezone) =>
    "RuleCondition[SkipOnNotAllParentsUpdatedSinceCronRule," ++ cron_schedule ++ ","
      ++ timezone ++ "]"
  | .materializedCondition => "MaterializedSchedulingCondition"
  | .inProgressCondition => "InProgressSchedulingCondition"
  | .inLatestTimeWindowCondition none => "InLatestTimeWindowCondition[]"
  | .inLatestTimeWindowCondition (some s) => "InLatestTimeWindowCondition[" ++ toString s ++ "]"

/-! ## Leaf-level cache on top of the evaluator (spec §4.2 Caching) -/

/-- Modelled from the spec: a previous-tick cache, keyed by a condition's
`unique_id` and the candidate it was evaluated against; `none` means no
usable cached entry. -/
def CacheStore (P : Type) [DecidableEq P] : Type :=
  String → Finset P → Option (Finset P)

/-- The cache store with no entries (cache never consulted successfully). -/
def noCache {P : Type} [DecidableEq P] : CacheStore P := fun _ _ => none

/-- Modelled from the spec: leaf semantics that first consult the
previous-tick cache under the leaf condition's `unique_id`, falling back
to the underlying external-state semantics `E` on a miss. -/
def cachedEnv {L P : Type} [DecidableEq P] (tagL : L → String) (cache : CacheStore P)
    (E : L → Finset P → Finset P) : L → Finset P → Finset P :=
  fun op cand =>
    match cache (uniqueId tagL (CondM.leaf op)) cand with
    | some s => s
    | none => E op cand

/-- Evaluation with the leaf-level cache enabled. -/
def evalWithCache {L P : Type} [DecidableEq P] (tagL : L → String) (cache : CacheStore P)
    (E : L → Finset P → Finset P) (c : CondM L) (cand : Finset P) : EvalResult P :=
  evalCond (cachedEnv tagL cache E) c cand

/-- A cache store is coherent with the external-state semantics `E` when
every hit returns exactly what evaluating the leaf against `E` would
return (the spec: under unchanged external state, a cached sub-result
equals the recomputed one). -/
def CacheCoherent {L P : Type} [DecidableEq P] (tagL : L → String) (cache : CacheStore P)
    (E : L → Finset P → Finset P) : Prop :=
  ∀ (op : L) (cand : Finset P) (s : Finset P),
    cache (uniqueId tagL (CondM.leaf op)) cand = some s → s = E op cand

/-! ## The AssetCondition factory methods of `legacy/asset_condition.py` -/

/-- `AssetCondition.parent_newer` (lines 40–49): `RuleCondition(rule=AutoMaterializeRule.materialize_on_parent_updated())`. -/
def AssetCondition.parent_newer : CondM LeafOp :=
  .leaf (.ruleCondition .materialize_on_parent_updated)

/-- `AssetCondition.missing` (lines 51–60): `RuleCondition(rule=AutoMaterializeRule.materialize_on_missing())`. -/
def AssetCondition.missing : CondM LeafOp :=
  .leaf (.ruleCondition .materialize_on_missing)

/-- `AssetCondition.parent_missing` (lines 62–71): `RuleCondition(rule=AutoMaterializeRule.skip_on_parent_missing())`. -/
def AssetCondition.parent_missing : CondM LeafOp :=
  .leaf (.ruleCondition .skip_on_parent_missing)

/-- `AssetCondition.updated_since_cron` (lines 73–83): `~RuleCondition(rule=AutoMaterializeRule.materialize_on_cron(cron_schedule, timezone))`. -/
def AssetCondition.updated_since_cron (cron_schedule timezone : String) : CondM LeafOp :=
  .notC (.leaf (.ruleCondition (.materialize_on_cron cron_schedule timezone)))

/-- `AssetCondition.parents_updated_since_cron` (lines 85–100): `~RuleCondition(rule=AutoMaterializeRule.skip_on_not_all_parents_updated_since_cron(cron_schedule, timezone))`. -/
def AssetCondition.parents_updated_since_cron (cron_schedule timezone : String) :
    CondM LeafOp :=
  .notC
    (.leaf (.ruleCondition (.skip_on_not_all_parents_updated_since_cron cron_schedule timezone)))

/-- `AssetCondition.materialized` (lines 120–125): `MaterializedSchedulingCondition()`. -/
def AssetCondition.materialized : CondM LeafOp := .leaf .materializedCondition

/-- `AssetCondition.in_progress` (lines 127–132): `InProgressSchedulingCondition()`. -/
def AssetCondition.in_progress : CondM LeafOp := .leaf .inProgressCondition

/-- `AssetCondition.in_latest_time_window` (lines 134–149):
`InLatestTimeWindowCondition(lookback_seconds=...)`, with `None` lookback
when no timedelta is given. -/
def AssetCondition.in_latest_time_window (lookback_seconds : Option Nat) : CondM LeafOp :=
  .leaf (.inLatestTimeWindowCondition lookback_seconds)

/-! ## Scenario state for the materialized() tests (spec §8)

Partition keys of one asset are `Option String`: a partitioned asset has
keys `some "1"`, `some "2"`, …; an unpartitioned asset has the single
implicit partition `none`, matching `AssetKeyPartitionKey(key, None)`. -/

/-- Modelled from the spec: the scenario state of the condition tests —
the asset's partition set and the ordered partition keys of the successful
materializations so far (the `AssetConditionScenarioState` machinery is
not in the snapshot). -/
structure ScenarioStateM : Type where
  partitionsDef : Finset (Option String)
  materializations : List (Option String)

/-- Modelled from the spec: running a materialization of one partition of
the asset (`state.with_runs(run_request("A", key))`) appends a successful
materialization event. -/
def ScenarioStateM.with_runs (s : ScenarioStateM) (pk : Option String) : ScenarioStateM :=
  { s with materializations := s.materializations ++ [pk] }

/-- Modelled from the spec: the true subset of
`MaterializedSchedulingCondition` — the candidate partitions that have
been materialized at least once. In the scenario the candidate is the
asset's full partition set. -/
def ScenarioStateM.evalMaterialized (s : ScenarioStateM) : Finset (Option String) :=
  s.partitionsDef.filter (fun p => p ∈ s.materializations)

/-- The two-partitions scenario spec: static partitions "1" and "2". -/
def two_partitions_def : Finset (Option String) := {some "1", some "2"}

/-- The partition set of an unpartitioned asset: the implicit partition. -/
def unpartitioned_def : Finset (Option String) := {none}

/-! ## Daily time partitions and in_latest_time_window (spec §8)

Time is a number of seconds; a daily time-partitioned asset starting at
`startT` has one partition per fully elapsed day, partition `i` covering
the window `[startT + i·86400, startT + (i+1)·86400)`. -/

/-- Seconds per daily partition window. -/
def SECONDS_PER_DAY : Nat := 86400

/-- Modelled from the spec: the valid partition keys of a daily
time-partitioned asset at current time `currentT` — one key per fully
elapsed day since `startT`, indexed from 0 (no partition exists before
the first window has elapsed). -/
def dailyPartitionKeys (startT currentT : Nat) : Finset Nat :=
  Finset.range ((currentT - startT) / SECONDS_PER_DAY)

/-- Modelled from the spec: the partitions of the latest time window for a
daily partitioning with no lookback — the most recent fully elapsed
partition, or none when no window has elapsed yet
(`InLatestTimeWindowCondition` with `lookback_seconds=None`; its code is
not in the snapshot). -/
def latestTimeWindowSubset (startT currentT : Nat) : Finset Nat :=
  if (currentT - startT) / SECONDS_PER_DAY = 0 then ∅
  else {(currentT - startT) / SECONDS_PER_DAY - 1}

/-- Modelled from the spec: the true subset of
`in_latest_time_window()` with no lookback on a daily-partitioned asset:
the candidate partitions lying in the latest time window. -/
def evalInLatestTimeWindowDaily (startT currentT : Nat) (cand : Finset Nat) : Finset Nat :=
  cand ∩ latestTimeWindowSubset startT currentT

/-! ## AssetConditionResult.create / create_from_children
(`legacy/asset_condition.py`, lines 152–207)

The embedding keeps the Python field names and order. `condition` is an
abstract type `C`, metadata entries an abstract type `M`, the packable
`extra_state` an abstract `Option E` (Python `None` is `none`), and
timestamps are numbers; `pendulum.now("UTC").timestamp()` is modelled as
an explicit `now` argument. `true_slice` is produced from the valid
subset by the context's `asset_graph_view.get_asset_slice_from_subset`. -/

/-- The fields of `SchedulingContext` that `AssetConditionResult.create`
and `create_from_children` read: the condition, its unique id, the start
timestamp, the candidate subset, and the asset graph view's
`get_asset_slice_from_subset`. -/
structure SchedulingContextM (C P : Type) [DecidableEq P] : Type where
  condition : C
  condition_unique_id : String
  start_timestamp : Nat
  candidate_subset : Finset P
  get_asset_slice_from_subset : Finset P → Finset P

/-- The `AssetConditionResult` frozen dataclass (lines 152–164), with its
fields in source order. -/
inductive AssetConditionResult (C M E P : Type) [DecidableEq P] : Type where
  | mk (condition : C) (condition_unique_id : String)
      (start_timestamp end_timestamp : Nat)
      (true_slice : Finset P) (candidate_subset : Finset P)
      (subsets_with_metadata : List M) (extra_state : Option E)
      (child_results : List (AssetConditionResult C M E P)) :
      AssetConditionResult C M E P

/-- Field `condition`. -/
@[simp] def AssetConditionResult.condition {C M E P : Type} [DecidableEq P] :
    AssetConditionResult C M E P → C
  | .mk c _ _ _ _ _ _ _ _ => c

/-- Field `condition_unique_id`. -/
@[simp] def AssetConditionResult.condition_unique_id {C M E P : Type} [DecidableEq P] :
    AssetConditionResult C M E P → String
  | .mk _ u _ _ _ _ _ _ _ => u

/-- Field `start_timestamp`. -/
@[simp] def AssetConditionResult.start_timestamp {C M E P : Type} [DecidableEq P] :
    AssetConditionResult C M E P → Nat
  | .mk _ _ t _ _ _ _ _ _ => t

/-- Field `end_timestamp`. -/
@[simp] def AssetConditionResult.end_timestamp {C M E P : Type} [DecidableEq P] :
    AssetConditionResult C M E P → Nat
  | .mk _ _ _ t _ _ _ _ _ => t

/-- Field `true_slice`. -/
@[simp] def AssetConditionResult.true_slice {C M E P : Type} [DecidableEq P] :
    AssetConditionResult C M E P → Finset P
  | .mk _ _ _ _ s _ _ _ _ => s

/-- Field `candidate_subset`. -/
@[simp] def AssetConditionResult.candidate_subset {C M E P : Type} [DecidableEq P] :
    AssetConditionResult C M E P → Finset P
  | .mk _ _ _ _ _ s _ _ _ => s

/-- Field `subsets_with_metadata`. -/
@[simp] def AssetConditionResult.subsets_with_metadata {C M E P : Type} [DecidableEq P] :
    AssetConditionResult C M E P → List M
  | .mk _ _ _ _ _ _ m _ _ => m

/-- Field `extra_state`. -/
@[simp] def AssetConditionResult.extra_state {C M E P : Type} [DecidableEq P] :
    AssetConditionResult C M E P → Option E
  | .mk _ _ _ _ _ _ _ e _ => e

/-- Field `child_results`. -/
@[simp] def AssetConditionResult.child_results {C M E P : Type} [DecidableEq P] :
    AssetConditionResult C M E P → List (AssetConditionResult C M E P)
  | .mk _ _ _ _ _ _ _ _ rs => rs

/-- `AssetConditionResult.create_from_children` (lines 170–187): builds a
result from child results, copying `condition`, `condition_unique_id`,
`start_timestamp` and `candidate_subset` from the context, converting
`true_subset` through `get_asset_slice_from_subset`, with
`subsets_with_metadata=[]` and `extra_state=None`. -/
def AssetConditionResult.create_from_children {C M E P : Type} [DecidableEq P]
    (context : SchedulingContextM C P) (true_subset : Finset P)
    (child_results : List (AssetConditionResult C M E P)) (now : Nat) :
    AssetConditionResult C M E P :=
  .mk context.condition context.condition_unique_id context.start_timestamp now
    (context.get_asset_slice_from_subset true_subset) context.candidate_subset
    [] none child_results

/-- `AssetConditionResult.create` (lines 189–207): builds a leaf result,
copying `condition`, `condition_unique_id`, `start_timestamp` and
`candidate_subset` from the context, converting `true_subset` through
`get_asset_slice_from_subset`, with `child_results=[]`. -/
def AssetConditionResult.create {C M E P : Type} [DecidableEq P]
    (context : SchedulingContextM C P) (true_subset : Finset P)
    (subsets_with_metadata : List M) (extra_state : Option E) (now : Nat) :
    AssetConditionResult C M E P :=
  .mk context.condition context.condition_unique_id context.start_timestamp now
    (context.get_asset_slice_from_subset true_subset) context.candidate_subset
    subsets_with_metadata extra_state []

/-! ## Helper lemmas about the evaluator -/

/-- Every evaluation records the candidate it was evaluated against. -/
theorem evalCond_candidate {L P : Type} [DecidableEq P] (E : L → Finset P → Finset P)
    (c : CondM L) (cand : Finset P) : (evalCond E c cand).candidate = cand := by
  cases c <;> simp [evalCond]

/-- The AND accumulator only shrinks. -/
theorem evalAndRest_snd_subset_acc {L P : Type} [DecidableEq P] (E : L → Finset P → Finset P)
    (pc : Finset P) (cs : List (CondM L)) (acc : Finset P) :
    (evalAndRest E pc cs acc).2 ⊆ acc := by
  induction cs generalizing acc with
  | nil => simp [evalAndRest]
  | cons c cs ih =>
    simp only [evalAndRest]
    exact (ih _).trans Finset.inter_subset_left

/-- The final AND accumulator is contained in every child result's true
subset. -/
theorem evalAndRest_snd_subset_children {L P : Type} [DecidableEq P]
    (E : L → Finset P → Finset P) (pc : Finset P) (cs : List (CondM L)) (acc : Finset P) :
    ∀ r ∈ (evalAndRest E pc cs acc).1, (evalAndRest E pc cs acc).2 ⊆ r.trueSubset := by
  induction cs generalizing acc with
  | nil => simp [evalAndRest]
  | cons c cs ih =>
    intro r hr
    simp only [evalAndRest, List.mem_cons] at hr ⊢
    rcases hr with rfl | hr
    · exact (evalAndRest_snd_subset_acc E pc cs _).trans Finset.inter_subset_right
    · exact ih _ r hr

/-- The final AND accumulator is the left fold of intersection over the
child results' true subsets, starting from the incoming accumulator. -/
theorem evalAndRest_snd_eq_foldl {L P : Type} [DecidableEq P] (E : L → Finset P → Finset P)
    (pc : Finset P) (cs : List (CondM L)) (acc : Finset P) :
    (evalAndRest E pc cs acc).2
      = ((evalAndRest E pc cs acc).1.map EvalResult.trueSubset).foldl
          (fun a b => a ∩ b) acc := by
  induction cs generalizing acc with
  | nil => simp [evalAndRest]
  | cons c cs ih => simp only [evalAndRest, List.map_cons, List.foldl_cons]; exact ih _

/-- The OR accumulator only grows. -/
theorem evalOrRest_acc_subset_snd {L P : Type} [DecidableEq P] (E : L → Finset P → Finset P)
    (pc : Finset P) (cs : List (CondM L)) (acc : Finset P) :
    acc ⊆ (evalOrRest E pc cs acc).2 := by
  induction cs generalizing acc with
  | nil => simp [evalOrRest]
  | cons c cs ih =>
    simp only [evalOrRest]
    exact Finset.subset_union_left.trans (ih _)

/-- Every OR child result's true subset is contained in the final OR
accumulator. -/
theorem evalOrRest_children_subset_snd {L P : Type} [DecidableEq P]
    (E : L → Finset P → Finset P) (pc : Finset P) (cs : List (CondM L)) (acc : Finset P) :
    ∀ r ∈ (evalOrRest E pc cs acc).1, r.trueSubset ⊆ (evalOrRest E pc cs acc).2 := by
  induction cs generalizing acc with
  | nil => simp [evalOrRest]
  | cons c cs ih =>
    intro r hr
    simp only [evalOrRest, List.mem_cons] at hr ⊢
    rcases hr with rfl | hr
    · exact Finset.subset_union_right.trans (evalOrRest_acc_subset_snd E pc cs _)
    · exact ih _ r hr

/-- The final OR accumulator is the left fold of union over the child
results' true subsets, starting from the incoming accumulator. -/
theorem evalOrRest_snd_eq_foldl {L P : Type} [DecidableEq P] (E : L → Finset P → Finset P)
    (pc : Finset P) (cs : List (CondM L)) (acc : Finset P) :
    (evalOrRest E pc cs acc).2
      = ((evalOrRest E pc cs acc).1.map EvalResult.trueSubset).foldl
          (fun a b => a ∪ b) acc := by
  induction cs generalizing acc with
  | nil => simp [evalOrRest]
  | cons c cs ih => simp only [evalOrRest, List.map_cons, List.foldl_cons]; exact ih _

/-- Every OR child is evaluated against the parent's candidate unchanged. -/
theorem evalOrRest_children_candidate {L P : Type} [DecidableEq P]
    (E : L → Finset P → Finset P) (pc : Finset P) (cs : List (CondM L)) (acc : Finset P) :
    ∀ r ∈ (evalOrRest E pc cs acc).1, r.candidate = pc := by
  induction cs generalizing acc with
  | nil => simp [evalOrRest]
  | cons c cs ih =>
    intro r hr
    simp only [evalOrRest, List.mem_cons] at hr
    rcases hr with rfl | hr
    · exact evalCond_candidate E c pc
    · exact ih _ r hr

/-! ## The claims -/

/-- C4: for every NOT condition with a single child and every context, the
result's true slice equals the candidate subset minus the child's true
slice — the complement is taken relative to the candidate only, so the NOT
result never contains a partition outside the candidate subset. -/
theorem C4_not_true_slice {L P : Type} [DecidableEq P] (E : L → Finset P → Finset P)
    (c : CondM L) (cand : Finset P) :
    (evalCond E (CondM.notC c) cand).trueSubset
        = subtractSubset cand (evalCond E c cand).trueSubset
    ∧ (evalCond E (CondM.notC c) cand).trueSubset ⊆ cand := by
  constructor
  · simp [evalCond, subtractSubset]
  · simp only [evalCond, EvalResult.trueSubset]
    exact Finset.sdiff_subset

/-- C1: for every scheduling context (leaf semantics `E` and candidate
subset), the condition built by `AssetCondition.updated_since_cron` has a
true slice that is exactly the logical negation — taken over the full
candidate subset — of the true slice of the wrapped legacy cron rule
condition intersected with the candidate:
`A.true_slice = invert(B.true_slice ∩ candidate)` with the inversion
relative to the candidate subset. -/
theorem C1_updated_since_cron_negation {P : Type} [DecidableEq P]
    (E : LeafOp → Finset P → Finset P) (cand : Finset P) (cron_schedule timezone : String) :
    (evalCond E (AssetCondition.updated_since_cron cron_schedule timezone) cand).trueSubset
      = invertSubset cand
          (intersectSubset
            (evalCond E
              (CondM.leaf (.ruleCondition (.materialize_on_cron cron_schedule timezone)))
              cand).trueSubset
            cand) := by
  simp only [AssetCondition.updated_since_cron, evalCond, EvalResult.trueSubset,
    invertSubset, intersectSubset]
  ext x
  simp only [Finset.mem_sdiff, Finset.mem_inter]
  tauto

/-- C5: for all asset subsets `A`, `B` of the same asset and
partition-space snapshot (`A` contained in the valid space), the subset
algebra satisfies `union(A,B) = union(B,A)`, `intersect(A, invert(A)) = ∅`
and `invert(invert(A)) = A`. -/
theorem C5_subset_algebra {P : Type} [DecidableEq P] (validSpace A B : Finset P)
    (hA : A ⊆ validSpace) :
    unionSubset A B = unionSubset B A
    ∧ intersectSubset A (invertSubset validSpace A) = ∅
    ∧ invertSubset validSpace (invertSubset validSpace A) = A := by
  refine ⟨Finset.union_comm A B, ?_, ?_⟩
  · simp [intersectSubset, invertSubset, Finset.inter_sdiff_self]
  · exact sdiff_sdiff_eq_self hA

/-- Witness for C5 at a concrete valid space and subsets. -/
theorem C5_subset_algebra_witness :
    (({0} : Finset Nat) ⊆ {0, 1, 2})
    ∧ (unionSubset ({0} : Finset Nat) {1} = unionSubset {1} {0}
      ∧ intersectSubset ({0} : Finset Nat) (invertSubset {0, 1, 2} {0}) = ∅
      ∧ invertSubset ({0, 1, 2} : Finset Nat) (invertSubset {0, 1, 2} {0}) = {0}) :=
  ⟨by decide, C5_subset_algebra {0, 1, 2} {0} {1} (by decide)⟩

/-- C10: `AssetConditionResult.create` always returns a result with empty
`child_results`; `AssetConditionResult.create_from_children` always
returns a result with empty `subsets_with_metadata` and `extra_state =
None`; and both copy `condition`, `condition_unique_id`,
`start_timestamp` and `candidate_subset` from the context unchanged. -/
theorem C10_result_constructors {C M E P : Type} [DecidableEq P]
    (context : SchedulingContextM C P) (true_subset : Finset P)
    (subsets_with_metadata : List M) (extra_state : Option E)
    (child_results : List (AssetConditionResult C M E P)) (now1 now2 : Nat) :
    (AssetConditionResult.create context true_subset subsets_with_metadata
        extra_state now1).child_results = []
    ∧ (AssetConditionResult.create_from_children context true_subset child_results
        now2).subsets_with_metadata = ([] : List M)
    ∧ (AssetConditionResult.create_from_children (E := E) context true_subset child_results
        now2).extra_state = none
    ∧ (AssetConditionResult.create context true_subset subsets_with_metadata
        extra_state now1).condition = context.condition
    ∧ (AssetConditionResult.create context true_subset subsets_with_metadata
        extra_state now1).condition_unique_id = context.condition_unique_id
    ∧ (AssetConditionResult.create context true_subset subsets_with_metadata
        extra_state now1).start_timestamp = context.start_timestamp
    ∧ (AssetConditionResult.create context true_subset subsets_with_metadata
        extra_state now1).candidate_subset = context.candidate_subset
    ∧ (AssetConditionResult.create_from_children (M := M) (E := E) context true_subset
        child_results now2).condition = context.condition
    ∧ (AssetConditionResult.create_from_children (M := M) (E := E) context true_subset
        child_results now2).condition_unique_id = context.condition_unique_id
    ∧ (AssetConditionResult.create_from_children (M := M) (E := E) context true_subset
        child_results now2).start_timestamp = context.start_timestamp
    ∧ (AssetConditionResult.create_from_children (M := M) (E := E) context true_subset
        child_results now2).candidate_subset = context.candidate_subset :=
  ⟨rfl, rfl, rfl, rfl, rfl, rfl, rfl, rfl, rfl, rfl, rfl⟩

/-- C3: for every AND condition and every OR condition and every context,
the AND result's true slice is a subset of every child result's true
slice and equals the intersection of all children's true slices, while
the OR result's true slice is a superset of every child result's true
slice and equals the union of all children's true slices, with each OR
child receiving the parent's candidate subset unchanged. -/
theorem C3_and_or_true_slices {L P : Type} [DecidableEq P] (E : L → Finset P → Finset P)
    (c : CondM L) (cs : List (CondM L)) (cand : Finset P) :
    ((∀ r ∈ (evalCond E (CondM.andC c cs) cand).childResults,
        (evalCond E (CondM.andC c cs) cand).trueSubset ⊆ r.trueSubset)
      ∧ (evalCond E (CondM.andC c cs) cand).trueSubset
          = interList
              ((evalCond E (CondM.andC c cs) cand).childResults.map EvalResult.trueSubset))
    ∧ ((∀ r ∈ (evalCond E (CondM.orC c cs) cand).childResults,
        r.trueSubset ⊆ (evalCond E (CondM.orC c cs) cand).trueSubset)
      ∧ (∀ r ∈ (evalCond E (CondM.orC c cs) cand).childResults, r.candidate = cand)
      ∧ (evalCond E (CondM.orC c cs) cand).trueSubset
          = unionList
              ((evalCond E (CondM.orC c cs) cand).childResults.map EvalResult.trueSubset)) := by
  constructor
  · constructor
    · intro r hr
      simp only [evalCond, EvalResult.childResults, EvalResult.trueSubset,
        List.mem_cons] at hr ⊢
      rcases hr with rfl | hr
      · exact evalAndRest_snd_subset_acc E cand cs _
      · exact evalAndRest_snd_subset_children E cand cs _ r hr
    · simp only [evalCond, EvalResult.childResults, EvalResult.trueSubset, List.map_cons,
        interList]
      exact evalAndRest_snd_eq_foldl E cand cs _
  · refine ⟨?_, ?_, ?_⟩
    · intro r hr
      simp only [evalCond, EvalResult.childResults, EvalResult.trueSubset,
        List.mem_cons] at hr ⊢
      rcases hr with rfl | hr
      · exact evalOrRest_acc_subset_snd E cand cs _
      · exact evalOrRest_children_subset_snd E cand cs _ r hr
    · intro r hr
      simp only [evalCond, EvalResult.childResults, List.mem_cons] at hr
      rcases hr with rfl | hr
      · exact evalCond_candidate E c cand
      · exact evalOrRest_children_candidate E cand cs _ r hr
    · simp only [evalCond, EvalResult.childResults, EvalResult.trueSubset, List.map_cons,
        unionList]
      exact evalOrRest_snd_eq_foldl E cand cs _

/-- Witness for C3 at a concrete two-child AND and OR over the identity
leaf semantics. -/
theorem C3_and_or_true_slices_witness :
    (evalCond (fun (_ : Unit) cand => cand)
        (CondM.andC (CondM.leaf ()) [CondM.leaf ()]) ({1, 2} : Finset Nat)).trueSubset
      ⊆ (evalCond (fun (_ : Unit) cand => cand) (CondM.leaf ()) ({1, 2} : Finset Nat)).trueSubset
    ∧ (evalCond (fun (_ : Unit) cand => cand) (CondM.leaf ()) ({1, 2} : Finset Nat)).trueSubset
      ⊆ (evalCond (fun (_ : Unit) cand => cand)
          (CondM.orC (CondM.leaf ()) [CondM.leaf ()]) ({1, 2} : Finset Nat)).trueSubset :=
  ⟨(C3_and_or_true_slices (fun (_ : Unit) cand => cand) (CondM.leaf ()) [CondM.leaf ()]
      {1, 2}).1.1 _ (by simp [evalCond, evalAndRest]),
   (C3_and_or_true_slices (fun (_ : Unit) cand => cand) (CondM.leaf ()) [CondM.leaf ()]
      {1, 2}).2.1 _ (by simp [evalCond, evalOrRest])⟩

/-- C6: `unique_id` is a pure function of a condition's structural
identity: structurally identical conditions — however and wherever built —
share the same unique id, and the unique id of a combinator node is
determined by its variant tag together with the recursively computed
child unique ids alone. -/
theorem C6_unique_id_structural {L : Type} (tagL : L → String) :
    (∀ c1 c2 : CondM L, c1 = c2 → uniqueId tagL c1 = uniqueId tagL c2)
    ∧ (∀ (c c' : CondM L) (cs cs' : List (CondM L)),
        uniqueId tagL c = uniqueId tagL c' →
        uniqueIdList tagL cs = uniqueIdList tagL cs' →
        uniqueId tagL (CondM.andC c cs) = uniqueId tagL (CondM.andC c' cs')
        ∧ uniqueId tagL (CondM.orC c cs) = uniqueId tagL (CondM.orC c' cs'))
    ∧ (∀ c c' : CondM L, uniqueId tagL c = uniqueId tagL c' →
        uniqueId tagL (CondM.notC c) = uniqueId tagL (CondM.notC c')) := by
  refine ⟨fun c1 c2 h => h ▸ rfl, ?_, ?_⟩
  · intro c c' cs cs' h1 h2
    constructor <;> simp only [uniqueId, h1, h2]
  · intro c c' h
    simp only [uniqueId, h]

/-- Witness for C6: two independently built, structurally identical
conditions share the same unique id. -/
theorem C6_unique_id_structural_witness :
    AssetCondition.updated_since_cron "0 * * * *" "UTC"
      = CondM.notC (CondM.leaf (.ruleCondition (.materialize_on_cron "0 * * * *" "UTC")))
    ∧ uniqueId LeafOp.tag (AssetCondition.updated_since_cron "0 * * * *" "UTC")
      = uniqueId LeafOp.tag
          (CondM.notC (CondM.leaf (.ruleCondition (.materialize_on_cron "0 * * * *" "UTC")))) :=
  ⟨rfl, (C6_unique_id_structural LeafOp.tag).1 _ _ rfl⟩

/-- C7: evaluation is deterministic in its inputs and independent of the
cache: equal leaf semantics and equal candidates give bit-identical
results; evaluating with no cache entries equals pure evaluation; and for
any cache coherent with the unchanged external state, evaluation with the
cache consulted equals evaluation without it. -/
theorem C7_eval_cache_independent {L P : Type} [DecidableEq P] (tagL : L → String)
    (cache : CacheStore P) (E E' : L → Finset P → Finset P) (c : CondM L)
    (cand cand' : Finset P) :
    (E = E' → cand = cand' → evalCond E c cand = evalCond E' c cand')
    ∧ evalWithCache tagL noCache E c cand = evalCond E c cand
    ∧ (CacheCoherent tagL cache E →
        evalWithCache tagL cache E c cand = evalCond E c cand) := by
  refine ⟨fun h1 h2 => by rw [h1, h2], ?_, ?_⟩
  · have hEnv : cachedEnv tagL (noCache (P := P)) E = E := by
      funext op cand2
      simp [cachedEnv, noCache]
    rw [evalWithCache, hEnv]
  · intro hcoh
    have hEnv : cachedEnv tagL cache E = E := by
      funext op cand2
      rw [cachedEnv]
      cases hc : cache (uniqueId tagL (CondM.leaf op)) cand2 with
      | none => rfl
      | some s => exact hcoh op cand2 s hc
    rw [evalWithCache, hEnv]

/-- Witness for C7: a concrete, fully populated coherent cache gives the
same evaluation as the pure evaluator. -/
theorem C7_eval_cache_independent_witness :
    CacheCoherent (P := Nat) (fun (_ : Unit) => "Leaf") (fun _ cand => some cand)
      (fun (_ : Unit) cand => cand)
    ∧ evalWithCache (fun (_ : Unit) => "Leaf") (fun _ cand => some cand)
        (fun (_ : Unit) cand => cand) (CondM.leaf ()) ({1, 2} : Finset Nat)
      = evalCond (fun (_ : Unit) cand => cand) (CondM.leaf ()) ({1, 2} : Finset Nat) := by
  have hcoh : CacheCoherent (P := Nat) (fun (_ : Unit) => "Leaf") (fun _ cand => some cand)
      (fun (_ : Unit) cand => cand) := by
    intro op cand s h
    have h' : some cand = some s := h
    exact (Option.some_injective _ h').symm
  exact ⟨hcoh,
    (C7_eval_cache_independent (fun (_ : Unit) => "Leaf") (fun _ cand => some cand)
      (fun (_ : Unit) cand => cand) (fun (_ : Unit) cand => cand) (CondM.leaf ())
      {1, 2} {1, 2}).2.2 hcoh⟩

/-- C2: for a daily time-partitioned asset under `in_latest_time_window()`
with no lookback, evaluated against the full partition space: at the
partition-space start time the true subset has size 0; one or more days
later it has size 1 and is exactly the most recent elapsed partition;
after advancing the clock 5 more days it again has size 1, contains only
the new latest partition, and the previous latest is no longer a member. -/
theorem C2_in_latest_time_window_daily (startT T : Nat)
    (h : startT + SECONDS_PER_DAY ≤ T) :
    (evalInLatestTimeWindowDaily startT startT (dailyPartitionKeys startT startT)).card = 0
    ∧ (evalInLatestTimeWindowDaily startT T (dailyPartitionKeys startT T)).card = 1
    ∧ evalInLatestTimeWindowDaily startT T (dailyPartitionKeys startT T)
        = {(T - startT) / SECONDS_PER_DAY - 1}
    ∧ evalInLatestTimeWindowDaily startT (T + 5 * SECONDS_PER_DAY)
          (dailyPartitionKeys startT (T + 5 * SECONDS_PER_DAY))
        = {(T - startT) / SECONDS_PER_DAY + 4}
    ∧ (T - startT) / SECONDS_PER_DAY - 1 ∉
        evalInLatestTimeWindowDaily startT (T + 5 * SECONDS_PER_DAY)
          (dailyPartitionKeys startT (T + 5 * SECONDS_PER_DAY)) := by
  have hday : 0 < SECONDS_PER_DAY := by norm_num [SECONDS_PER_DAY]
  have hsub : SECONDS_PER_DAY ≤ T - startT := by omega
  have hk1 : 1 ≤ (T - startT) / SECONDS_PER_DAY := (Nat.one_le_div_iff hday).mpr hsub
  have hT5 : (T + 5 * SECONDS_PER_DAY - startT) / SECONDS_PER_DAY
      = (T - startT) / SECONDS_PER_DAY + 5 := by
    have heq : T + 5 * SECONDS_PER_DAY - startT = (T - startT) + 5 * SECONDS_PER_DAY := by
      omega
    rw [heq, Nat.add_mul_div_right _ _ hday]
  have hinter : ∀ m : Nat, 0 < m → Finset.range m ∩ ({m - 1} : Finset Nat) = {m - 1} := by
    intro m hm
    apply Finset.inter_eq_right.mpr
    simp only [Finset.singleton_subset_iff, Finset.mem_range]
    omega
  have h0 : evalInLatestTimeWindowDaily startT startT (dailyPartitionKeys startT startT)
      = ∅ := by
    simp [evalInLatestTimeWindowDaily, latestTimeWindowSubset, dailyPartitionKeys]
  have h3 : evalInLatestTimeWindowDaily startT T (dailyPartitionKeys startT T)
      = {(T - startT) / SECONDS_PER_DAY - 1} := by
    simp only [evalInLatestTimeWindowDaily, latestTimeWindowSubset, dailyPartitionKeys]
    rw [if_neg (by omega)]
    exact hinter _ (by omega)
  have h4 : evalInLatestTimeWindowDaily startT (T + 5 * SECONDS_PER_DAY)
      (dailyPartitionKeys startT (T + 5 * SECONDS_PER_DAY))
      = {(T - startT) / SECONDS_PER_DAY + 4} := by
    simp only [evalInLatestTimeWindowDaily, latestTimeWindowSubset, dailyPartitionKeys, hT5]
    rw [if_neg (by omega)]
    simp
  refine ⟨by rw [h0]; rfl, by rw [h3]; rfl, h3, h4, ?_⟩
  rw [h4]
  simp only [Finset.mem_singleton]
  omega

/-- Witness for C2 at start time 0, evaluated exactly one day later. -/
theorem C2_in_latest_time_window_daily_witness :
    0 + SECONDS_PER_DAY ≤ 86400
    ∧ ((evalInLatestTimeWindowDaily 0 0 (dailyPartitionKeys 0 0)).card = 0
      ∧ (evalInLatestTimeWindowDaily 0 86400 (dailyPartitionKeys 0 86400)).card = 1
      ∧ evalInLatestTimeWindowDaily 0 86400 (dailyPartitionKeys 0 86400)
          = {(86400 - 0) / SECONDS_PER_DAY - 1}
      ∧ evalInLatestTimeWindowDaily 0 (86400 + 5 * SECONDS_PER_DAY)
            (dailyPartitionKeys 0 (86400 + 5 * SECONDS_PER_DAY))
          = {(86400 - 0) / SECONDS_PER_DAY + 4}
      ∧ (86400 - 0) / SECONDS_PER_DAY - 1 ∉
          evalInLatestTimeWindowDaily 0 (86400 + 5 * SECONDS_PER_DAY)
            (dailyPartitionKeys 0 (86400 + 5 * SECONDS_PER_DAY))) :=
  ⟨by decide, C2_in_latest_time_window_daily 0 86400 (by decide)⟩

/-- C8: for an asset with two static partitions under `materialized()`:
before any run the true subset has size 0; after materializing partition
"1" it has size 1; after materializing partition "1" again it still has
size 1; after additionally materializing partition "2" it has size 2. -/
theorem C8_materialized_partitioned :
    ((⟨two_partitions_def, []⟩ : ScenarioStateM).evalMaterialized).card = 0
    ∧ (((⟨two_partitions_def, []⟩ : ScenarioStateM).with_runs
        (some "1")).evalMaterialized).card = 1
    ∧ ((((⟨two_partitions_def, []⟩ : ScenarioStateM).with_runs (some "1")).with_runs
        (some "1")).evalMaterialized).card = 1
    ∧ (((((⟨two_partitions_def, []⟩ : ScenarioStateM).with_runs (some "1")).with_runs
        (some "1")).with_runs (some "2")).evalMaterialized).card = 2 := by
  refine ⟨?_, ?_, ?_, ?_⟩ <;> decide

/-- C9: for an unpartitioned asset under `materialized()`: before any run
the true subset has size 0; after one successful run it has size 1 — the
single implicit partition. -/
theorem C9_materialized_unpartitioned :
    ((⟨unpartitioned_def, []⟩ : ScenarioStateM).evalMaterialized).card = 0
    ∧ (((⟨unpartitioned_def, []⟩ : ScenarioStateM).with_runs none).evalMaterialized).card = 1
    ∧ ((⟨unpartitioned_def, []⟩ : ScenarioStateM).with_runs none).evalMaterialized
        = {none} := by
  refine ⟨?_, ?_, ?_⟩ <;> decide

end DagsterScheduling
